import Mathlib

/-!
The tsuru-client app commands (`apps.go`).

A shallow embedding of the six commands of `apps.go` (`app-grant`, `app-revoke`,
`app-list`, `app-create`, `app-remove`, `log`) together with the library behaviour
they rely on (`encoding/json`, `time`, `net/http`), followed by theorems about what
each command sends, returns and writes.

Conventions.
* Byte slices are Lean strings; a response body is the text read from it.
* A command run yields how it ended (the returned `error`, or a panic) and the ordered
  trace of its effects: transport calls, body reads, writes to `context.Stdout`, body
  closes. A run "wrote nothing" when its trace holds no write.
* `cmd.GetUrl`, the URL check inside `http.NewRequest`, the `cmd.Doer` and the
  timestamp parser behind `time.Time.UnmarshalJSON` are fields of an environment `Env`.
  `cmd.Table` is kept symbolic: a table write records the table handed to the renderer.
* `encoding/json` is modelled in two steps, as the library works: the text is scanned
  as one JSON value (a syntax error otherwise), then the value is decoded into the Go
  value. Errors are kept by kind, not by message.
-/

set_option maxRecDepth 100000

namespace Tsuru

/-! ## JSON text (the scanner of `encoding/json`) -/

/-- The double quote character. -/
def dquote : Char := Char.ofNat 34

/-- The backslash character. -/
def backslash : Char := Char.ofNat 92

/-- A JSON value as `encoding/json` scans it. A string keeps the raw text between its
quotes (escape sequences not yet interpreted), because `time.Time.UnmarshalJSON`
receives the raw bytes while string fields receive the unquoted text. Object keys
are stored unquoted, in document order, repeated keys included. -/
inductive JSON where
  | null
  | bool (b : Bool)
  | num (lit : List Char)
  | str (raw : List Char)
  | arr (elems : List JSON)
  | obj (members : List (String × JSON))

/-- JSON insignificant whitespace: space, tab, carriage return, line feed. -/
def isSpace (c : Char) : Bool :=
  c.toNat = 32 || c.toNat = 9 || c.toNat = 13 || c.toNat = 10

/-- Decimal digit test. -/
def isDigit (c : Char) : Bool := 48 ≤ c.toNat && c.toNat ≤ 57

/-- Hexadecimal digit value, if `c` is a hexadecimal digit. -/
def hexVal (c : Char) : Option Nat :=
  if 48 ≤ c.toNat ∧ c.toNat ≤ 57 then some (c.toNat - 48)
  else if 97 ≤ c.toNat ∧ c.toNat ≤ 102 then some (c.toNat - 87)
  else if 65 ≤ c.toNat ∧ c.toNat ≤ 70 then some (c.toNat - 55)
  else none

/-- Drop leading whitespace. -/
def skipWS : List Char → List Char
  | [] => []
  | c :: cs => if isSpace c then skipWS cs else c :: cs

/-- Scan the rest of a string literal, the opening quote already consumed: returns
the raw text up to the closing quote and what follows it. Control characters and
malformed escapes are syntax errors. -/
def scanString : List Char → Option (List Char × List Char)
  | [] => none
  | c :: rest =>
    if c = dquote then some ([], rest)
    else if c = backslash then
      match rest with
      | [] => none
      | e :: rest2 =>
        if e = 'u' then
          match rest2 with
          | a :: b :: x :: d :: rest3 =>
            if (hexVal a).isSome ∧ (hexVal b).isSome ∧ (hexVal x).isSome ∧ (hexVal d).isSome then
              (scanString rest3).map fun p => (c :: e :: a :: b :: x :: d :: p.1, p.2)
            else none
          | _ => none
        else if e = dquote ∨ e = backslash ∨ e = '/' ∨ e = 'b' ∨ e = 'f' ∨ e = 'n'
            ∨ e = 'r' ∨ e = 't' then
          (scanString rest2).map fun p => (c :: e :: p.1, p.2)
        else none
    else if c.toNat < 32 then none
    else (scanString rest).map fun p => (c :: p.1, p.2)

/-- Scan a non-empty run of digits. -/
def scanDigits (cs : List Char) : Option (List Char × List Char) :=
  let p := cs.span isDigit
  if p.1 = [] then none else some p

/-- Scan a number literal: `-? (0 | [1-9][0-9]*) (. [0-9]+)? ([eE] [+-]? [0-9]+)?`. -/
def scanNumber (cs : List Char) : Option (List Char × List Char) :=
  let (sign, cs1) := match cs with
    | c :: r => if c = '-' then ([c], r) else ([], cs)
    | [] => ([], cs)
  let intPart : Option (List Char × List Char) := match cs1 with
    | c :: r => if c = '0' then some ([c], r) else scanDigits cs1
    | [] => none
  match intPart with
  | none => none
  | some (ip, cs2) =>
    let fracPart : Option (List Char × List Char) := match cs2 with
      | c :: r => if c = '.' then (scanDigits r).map fun p => (c :: p.1, p.2) else some ([], cs2)
      | [] => some ([], cs2)
    match fracPart with
    | none => none
    | some (fp, cs3) =>
      let expPart : Option (List Char × List Char) := match cs3 with
        | c :: r =>
          if c = 'e' ∨ c = 'E' then
            match r with
            | s :: r2 =>
              if s = '+' ∨ s = '-' then (scanDigits r2).map fun p => (c :: s :: p.1, p.2)
              else (scanDigits r).map fun p => (c :: p.1, p.2)
            | [] => none
          else some ([], cs3)
        | [] => some ([], cs3)
      match expPart with
      | none => none
      | some (ep, cs4) => some (sign ++ ip ++ fp ++ ep, cs4)

/-- Interpret the escape sequences of a scanned string (`unquote` of `encoding/json`).
`pending` is the first half of a surrogate pair read by the previous `\u` escape: it
is completed by a following `\u` escape naming a second half, and becomes U+FFFD
otherwise, as does a second half standing alone. -/
def unquoteChars (pending : Option Nat) : List Char → List Char
  | [] => if pending.isSome then [Char.ofNat 0xFFFD] else []
  | c :: rest =>
    let flush : List Char := if pending.isSome then [Char.ofNat 0xFFFD] else []
    if c = backslash then
      match rest with
      | [] => flush
      | e :: rest2 =>
        if e = 'u' then
          match rest2 with
          | a :: b :: x :: d :: rest3 =>
            let n := (hexVal a).getD 0 * 4096 + (hexVal b).getD 0 * 256
              + (hexVal x).getD 0 * 16 + (hexVal d).getD 0
            match pending with
            | some hi =>
              if 0xDC00 ≤ n ∧ n < 0xE000 then
                Char.ofNat (0x10000 + (hi - 0xD800) * 0x400 + (n - 0xDC00))
                  :: unquoteChars none rest3
              else if 0xD800 ≤ n ∧ n < 0xDC00 then
                Char.ofNat 0xFFFD :: unquoteChars (some n) rest3
              else Char.ofNat 0xFFFD :: Char.ofNat n :: unquoteChars none rest3
            | none =>
              if 0xD800 ≤ n ∧ n < 0xDC00 then unquoteChars (some n) rest3
              else if 0xDC00 ≤ n ∧ n < 0xE000 then Char.ofNat 0xFFFD :: unquoteChars none rest3
              else Char.ofNat n :: unquoteChars none rest3
          | _ => flush
        else if e = 'b' then flush ++ Char.ofNat 8 :: unquoteChars none rest2
        else if e = 'f' then flush ++ Char.ofNat 12 :: unquoteChars none rest2
        else if e = 'n' then flush ++ Char.ofNat 10 :: unquoteChars none rest2
        else if e = 'r' then flush ++ Char.ofNat 13 :: unquoteChars none rest2
        else if e = 't' then flush ++ Char.ofNat 9 :: unquoteChars none rest2
        else flush ++ e :: unquoteChars none rest2
    else flush ++ c :: unquoteChars none rest

/-- The Go string a scanned JSON string denotes. -/
def unquote (raw : List Char) : String := String.mk (unquoteChars none raw)

/-- Match a literal word at the head of the input. -/
def scanWord (w : List Char) (cs : List Char) : Option (List Char) :=
  if w.isPrefixOf cs then some (cs.drop w.length) else none

mutual
/-- Scan one JSON value (leading whitespace allowed). The fuel bounds the depth of
nested scanner calls. Along a chain of nested calls every value scan starts at a
different character, and so does every element or member scan, so twice the length of
the text, which is what `parseJSON` supplies, is more than any text can use. -/
def parseValue : Nat → List Char → Option (JSON × List Char)
  | 0, _ => none
  | fuel + 1, cs =>
    match skipWS cs with
    | [] => none
    | c :: rest =>
      if c = dquote then (scanString rest).map fun p => (JSON.str p.1, p.2)
      else if c = '[' then
        match skipWS rest with
        | [] => none
        | d :: rest2 =>
          if d = ']' then some (JSON.arr [], rest2)
          else (parseElems fuel rest).map fun p => (JSON.arr p.1, p.2)
      else if c = '{' then
        match skipWS rest with
        | [] => none
        | d :: rest2 =>
          if d = '}' then some (JSON.obj [], rest2)
          else (parseMembers fuel rest).map fun p => (JSON.obj p.1, p.2)
      else if c = 't' then (scanWord ['r', 'u', 'e'] rest).map fun r => (JSON.bool true, r)
      else if c = 'f' then (scanWord ['a', 'l', 's', 'e'] rest).map fun r => (JSON.bool false, r)
      else if c = 'n' then (scanWord ['u', 'l', 'l'] rest).map fun r => (JSON.null, r)
      else (scanNumber (c :: rest)).map fun p => (JSON.num p.1, p.2)
/-- Scan the elements of a non-empty array up to and including the closing bracket. -/
def parseElems : Nat → List Char → Option (List JSON × List Char)
  | 0, _ => none
  | fuel + 1, cs =>
    match parseValue fuel cs with
    | none => none
    | some (v, r) =>
      match skipWS r with
      | [] => none
      | d :: r2 =>
        if d = ',' then (parseElems fuel r2).map fun p => (v :: p.1, p.2)
        else if d = ']' then some ([v], r2)
        else none
/-- Scan the members of a non-empty object up to and including the closing brace. -/
def parseMembers : Nat → List Char → Option (List (String × JSON) × List Char)
  | 0, _ => none
  | fuel + 1, cs =>
    match skipWS cs with
    | [] => none
    | q :: r0 =>
      if q = dquote then
        match scanString r0 with
        | none => none
        | some (k, r1) =>
          match skipWS r1 with
          | [] => none
          | colon :: r2 =>
            if colon = ':' then
              match parseValue fuel r2 with
              | none => none
              | some (v, r3) =>
                match skipWS r3 with
                | [] => none
                | d :: r4 =>
                  if d = ',' then
                    (parseMembers fuel r4).map fun p => ((unquote k, v) :: p.1, p.2)
                  else if d = '}' then some ([(unquote k, v)], r4)
                  else none
            else none
      else none
end

/-- Scan a whole text as one JSON value (`checkValid` of `encoding/json`): `none` is a
syntax error, which includes empty input and trailing non-whitespace text. -/
def parseJSON (data : String) : Option JSON :=
  match parseValue (2 * data.length + 2) data.data with
  | none => none
  | some (v, r) => if skipWS r = [] then some v else none

/-! ## Errors, and the Go values the bodies decode into -/

/-- Go `error` values, by kind. The two decoding kinds are what `json.Unmarshal` can
return; every other error (URL, transport, body read) is `other` with its message. -/
inductive GoError where
  /-- A `*json.SyntaxError`: the text is not one well-formed JSON value. -/
  | syntaxError
  /-- An error of the decoding phase: a `*json.UnmarshalTypeError` (a JSON value that
  does not fit the Go type) or the error of `time.Time.UnmarshalJSON`. -/
  | unmarshalError
  /-- Any other error. -/
  | other (msg : String)
  deriving DecidableEq, Repr

/-- The errors `json.Unmarshal` returns. -/
def GoError.isDecodeError : GoError → Bool
  | .syntaxError => true
  | .unmarshalError => true
  | .other _ => false

/-- Source: `type Units struct { Ip string }`. -/
structure Units where
  Ip : String := ""
  deriving DecidableEq, Repr

/-- A Go slice: its elements, and the elements of its backing array beyond its length
(`spare`), which `encoding/json` decodes into again when the slice is re-filled. -/
structure GoSlice (α : Type) where
  elems : List α := []
  spare : List α := []
  deriving DecidableEq, Repr

/-- Source: `type AppModel struct { Name string; State string; Units []Units }`. -/
structure AppModel where
  Name : String := ""
  State : String := ""
  Units : GoSlice Units := {}
  deriving DecidableEq, Repr

/-- A `time.Time`, as far as `String()` shows it: the civil date and time in the
value's location, the nanoseconds, the location's offset east of UTC in seconds and
its abbreviation (empty for a zone known by offset only). -/
structure Time where
  year : Nat := 1
  month : Nat := 1
  day : Nat := 1
  hour : Nat := 0
  minute : Nat := 0
  second : Nat := 0
  nano : Nat := 0
  offset : Int := 0
  zone : String := "UTC"
  deriving DecidableEq, Repr

/-- Source: `type Log struct { Date time.Time; Message string }`. -/
structure Log where
  Date : Time := {}
  Message : String := ""
  deriving DecidableEq, Repr

/-! ## `time.Time.String` -/

/-- Decimal digits of `n`, zero-padded on the left to at least `width` characters
(`appendInt` of package `time`). -/
def padNat (width n : Nat) : List Char :=
  let ds := Nat.toDigits 10 n
  List.replicate (width - ds.length) '0' ++ ds

/-- The `.999999999` verb: nothing for zero nanoseconds, else a dot and the nine
digits with trailing zeros removed. -/
def fracString (nano : Nat) : List Char :=
  if nano = 0 then []
  else '.' :: ((padNat 9 nano).reverse.dropWhile (fun c => c = '0')).reverse

/-- The `-0700` verb: sign, hours and minutes of the offset. -/
def offsetString (offset : Int) : List Char :=
  let zone : Int := Int.tdiv offset 60
  (if zone < 0 then '-' else '+') :: (padNat 2 (zone.natAbs / 60) ++ padNat 2 (zone.natAbs % 60))

/-- Source: `log.Date.String()`, the layout `2006-01-02 15:04:05.999999999 -0700 MST`;
the `MST` verb prints the abbreviation, or the offset again when there is none. -/
def Time.String (t : Time) : String :=
  String.mk (padNat 4 t.year ++ '-' :: padNat 2 t.month ++ '-' :: padNat 2 t.day ++ ' '
    :: padNat 2 t.hour ++ ':' :: padNat 2 t.minute ++ ':' :: padNat 2 t.second
    ++ fracString t.nano ++ ' ' :: offsetString t.offset ++ ' '
    :: (if t.zone = "" then offsetString t.offset else t.zone.data))

/-! ## Decoding JSON values into the Go values (`json.Unmarshal`) -/

/-- Simple case folding of one character, as far as it can reach an ASCII letter:
upper case to lower case, and the two non-ASCII characters that fold to `s` and `k`. -/
def foldChar (c : Char) : Char :=
  if 65 ≤ c.toNat ∧ c.toNat ≤ 90 then Char.ofNat (c.toNat + 32)
  else if c.toNat = 0x17F then 's'
  else if c.toNat = 0x212A then 'k'
  else c

/-- A JSON key selects the struct field whose name it equals, or equals under case
folding (`bytes.EqualFold`); `field` is the field name in lower case. -/
def equalFold (key : String) (field : String) : Bool :=
  key.data.map foldChar = field.data

/-- Decode into a Go `string` holding `cur`: a JSON string sets it, `null` leaves it,
any other value is a type error. -/
def decodeString (cur : String) : JSON → Option String
  | .str raw => some (unquote raw)
  | .null => some cur
  | _ => none

/-- Decode the members of a JSON object into a `Units` struct, in document order. -/
def decodeUnitsMembers (cur : Units) : List (String × JSON) → Option Units
  | [] => some cur
  | (k, v) :: ms =>
    if equalFold k "ip" then
      match decodeString cur.Ip v with
      | some s => decodeUnitsMembers { cur with Ip := s } ms
      | none => none
    else decodeUnitsMembers cur ms

/-- Decode into a `Units` struct holding `cur`: an object fills fields, `null` leaves
it, any other value is a type error. -/
def decodeUnits (cur : Units) : JSON → Option Units
  | .obj ms => decodeUnitsMembers cur ms
  | .null => some cur
  | _ => none

/-- Decode array elements into a slice of `Units`: element `i` is decoded into what
the backing array holds at `i`, or into a zero value beyond it. -/
def decodeUnitsElems : List Units → List JSON → Option (List Units)
  | _, [] => some []
  | backing, v :: vs =>
    match decodeUnits (backing.headD {}) v with
    | none => none
    | some u =>
      match decodeUnitsElems backing.tail vs with
      | none => none
      | some us => some (u :: us)

/-- Decode into a `[]Units` holding `cur`: `null` sets it to nil, an empty array to a
fresh empty slice, an array re-fills it (keeping the rest of the backing array as
spare capacity), any other value is a type error. -/
def decodeUnitsSlice (cur : GoSlice Units) : JSON → Option (GoSlice Units)
  | .null => some {}
  | .arr [] => some {}
  | .arr vs =>
    match decodeUnitsElems (cur.elems ++ cur.spare) vs with
    | none => none
    | some us => some { elems := us, spare := (cur.elems ++ cur.spare).drop vs.length }
  | _ => none

/-- Decode the members of a JSON object into an `AppModel` struct, in document order;
keys that select no field are skipped. -/
def decodeAppModelMembers (cur : AppModel) : List (String × JSON) → Option AppModel
  | [] => some cur
  | (k, v) :: ms =>
    if equalFold k "name" then
      match decodeString cur.Name v with
      | some s => decodeAppModelMembers { cur with Name := s } ms
      | none => none
    else if equalFold k "state" then
      match decodeString cur.State v with
      | some s => decodeAppModelMembers { cur with State := s } ms
      | none => none
    else if equalFold k "units" then
      match decodeUnitsSlice cur.Units v with
      | some us => decodeAppModelMembers { cur with Units := us } ms
      | none => none
    else decodeAppModelMembers cur ms

/-- Decode into a zero `AppModel`: an object fills fields, `null` leaves the zero
value, any other value is a type error. -/
def decodeAppModel : JSON → Option AppModel
  | .obj ms => decodeAppModelMembers {} ms
  | .null => some {}
  | _ => none

/-- Decode array elements into fresh `AppModel` values. -/
def decodeAppModelElems : List JSON → Option (List AppModel)
  | [] => some []
  | v :: vs =>
    match decodeAppModel v with
    | none => none
    | some a =>
      match decodeAppModelElems vs with
      | none => none
      | some as => some (a :: as)

/-- Source: `var apps []AppModel; err := json.Unmarshal(result, &apps)`. The text is
first checked to be one JSON value; `null` leaves the nil slice, an array is decoded
element by element, any other value is a type error. -/
def json.Unmarshal_apps (result : String) : Except GoError (List AppModel) :=
  match parseJSON result with
  | none => .error .syntaxError
  | some .null => .ok []
  | some (.arr vs) =>
    match decodeAppModelElems vs with
    | some apps => .ok apps
    | none => .error .unmarshalError
  | some _ => .error .unmarshalError

/-- Decode the members of a JSON object into a `map[string]string`, in document
order; the map is an association list, most recent entry first. -/
def decodeMapMembers (cur : List (String × String)) :
    List (String × JSON) → Option (List (String × String))
  | [] => some cur
  | (k, v) :: ms =>
    match decodeString "" v with
    | some s => decodeMapMembers ((k, s) :: cur) ms
    | none => none

/-- Source: `out := make(map[string]string); err = json.Unmarshal(result, &out)`.
`null` sets the map to nil, which reads like the empty map. -/
def json.Unmarshal_out (result : String) : Except GoError (List (String × String)) :=
  match parseJSON result with
  | none => .error .syntaxError
  | some .null => .ok []
  | some (.obj ms) =>
    match decodeMapMembers [] ms with
    | some out => .ok out
    | none => .error .unmarshalError
  | some _ => .error .unmarshalError

/-- Indexing a `map[string]string`: the most recent entry for the key, or the zero
value `""`. -/
def mapIndex (out : List (String × String)) (key : String) : String :=
  (out.lookup key).getD ""

/-- What `time.Time.UnmarshalJSON` does with a JSON value: the timestamp parser
`parseTime` is given the raw text of a string (escape sequences are not interpreted),
`null` leaves the value, any other value is an error. -/
def decodeTime (parseTime : List Char → Option Time) (cur : Time) : JSON → Option Time
  | .str raw => parseTime raw
  | .null => some cur
  | _ => none

/-- Decode the members of a JSON object into a `Log` struct, in document order. -/
def decodeLogMembers (parseTime : List Char → Option Time) (cur : Log) :
    List (String × JSON) → Option Log
  | [] => some cur
  | (k, v) :: ms =>
    if equalFold k "date" then
      match decodeTime parseTime cur.Date v with
      | some t => decodeLogMembers parseTime { cur with Date := t } ms
      | none => none
    else if equalFold k "message" then
      match decodeString cur.Message v with
      | some s => decodeLogMembers parseTime { cur with Message := s } ms
      | none => none
    else decodeLogMembers parseTime cur ms

/-- Decode into a zero `Log`. -/
def decodeLog (parseTime : List Char → Option Time) : JSON → Option Log
  | .obj ms => decodeLogMembers parseTime {} ms
  | .null => some {}
  | _ => none

/-- Decode array elements into fresh `Log` values. -/
def decodeLogElems (parseTime : List Char → Option Time) : List JSON → Option (List Log)
  | [] => some []
  | v :: vs =>
    match decodeLog parseTime v with
    | none => none
    | some l =>
      match decodeLogElems parseTime vs with
      | none => none
      | some ls => some (l :: ls)

/-- Source: `logs := []Log{}; err = json.Unmarshal(result, &logs)`. `null` sets the
slice to nil. -/
def json.Unmarshal_logs (parseTime : List Char → Option Time) (result : String) :
    Except GoError (List Log) :=
  match parseJSON result with
  | none => .error .syntaxError
  | some .null => .ok []
  | some (.arr vs) =>
    match decodeLogElems parseTime vs with
    | some logs => .ok logs
    | none => .error .unmarshalError
  | some _ => .error .unmarshalError

/-! ## A timestamp parser -/

/-- Two decimal digits as a number. -/
def num2 (a b : Char) : Option Nat :=
  if isDigit a ∧ isDigit b then some ((a.toNat - 48) * 10 + (b.toNat - 48)) else none

/-- Days of a month of the Gregorian calendar. -/
def daysIn (month year : Nat) : Nat :=
  if month = 2 then
    if year % 4 = 0 ∧ (year % 100 ≠ 0 ∨ year % 400 = 0) then 29 else 28
  else if month = 4 ∨ month = 6 ∨ month = 9 ∨ month = 11 then 30
  else 31

/-- Nanoseconds of a run of fractional digits: the first nine, scaled. -/
def nanoOf (digits : List Char) : Nat :=
  ((digits.take 9).foldl (fun n c => n * 10 + (c.toNat - 48)) 0) * 10 ^ (9 - (digits.take 9).length)

/-- The optional fractional second: a dot followed by at least one digit. -/
def scanFraction (s : List Char) : Nat × List Char :=
  match s with
  | dot :: f :: more =>
    if dot = '.' ∧ isDigit f then
      let p := (f :: more).span isDigit
      (nanoOf p.1, p.2)
    else (0, s)
  | _ => (0, s)

/-- The zone of a timestamp: `Z`, or a sign, two digits, a colon and two digits. The
host's local zone is taken to be UTC, so offset zero is that zone and every other
offset is a zone without abbreviation. -/
def scanZone (s : List Char) : Option (Int × String) :=
  match s with
  | [z] => if z = 'Z' then some (0, "UTC") else none
  | [sg, a, b, c, d, e] =>
    match num2 a b, num2 d e with
    | some hr, some mm =>
      if (sg = '-' ∨ sg = '+') ∧ c = ':' ∧ hr ≤ 23 ∧ mm ≤ 59 then
        let off : Int := if sg = '-' then -(((hr * 60 + mm) * 60 : Nat) : Int)
          else (((hr * 60 + mm) * 60 : Nat) : Int)
        some (off, if off = 0 then "UTC" else "")
      else none
    | _, _ => none
  | _ => none

/-- The RFC 3339 timestamp parser of package `time` (`parseRFC3339`) on a host whose
local zone is UTC. `time.Time.UnmarshalJSON` tries it first; what it does with the
looser spellings this parser rejects is left to the environment. -/
def parseRFC3339 (s : List Char) : Option Time :=
  match s with
  | y1 :: y2 :: y3 :: y4 :: d1 :: m1 :: m2 :: d2 :: a1 :: a2 :: t :: h1 :: h2 :: c1 :: n1 :: n2
      :: c2 :: s1 :: s2 :: rest =>
    match num2 y1 y2, num2 y3 y4, num2 m1 m2, num2 a1 a2, num2 h1 h2, num2 n1 n2, num2 s1 s2 with
    | some yh, some yl, some mo, some da, some ho, some mi, some se =>
      if d1 = '-' ∧ d2 = '-' ∧ t = 'T' ∧ c1 = ':' ∧ c2 = ':' ∧ 1 ≤ mo ∧ mo ≤ 12 ∧ 1 ≤ da
          ∧ da ≤ daysIn mo (yh * 100 + yl) ∧ ho ≤ 23 ∧ mi ≤ 59 ∧ se ≤ 59 then
        match scanZone (scanFraction rest).2 with
        | some (off, name) =>
          some { year := yh * 100 + yl, month := mo, day := da, hour := ho, minute := mi,
                 second := se, nano := (scanFraction rest).1, offset := off, zone := name }
        | none => none
      else none
    | _, _, _, _, _, _, _ => none
  | _ => none

/-! ## The HTTP boundary and the command context -/

/-- An `*http.Request`, as far as the commands set it. -/
structure Request where
  Method : String
  URL : String
  Body : Option String
  Header : List (String × String) := []
  deriving DecidableEq, Repr

/-- A response body stream: what `ioutil.ReadAll` returns for it, the bytes read and
the read error if reading failed after them. -/
structure ReadCloser where
  data : String
  err : Option GoError := none
  deriving DecidableEq, Repr

/-- An `*http.Response`, as far as the commands read it. -/
structure Response where
  StatusCode : Nat
  Body : ReadCloser
  deriving DecidableEq, Repr

/-- Source: `http.StatusNoContent`. -/
def StatusNoContent : Nat := 204

/-- Source: `ioutil.ReadAll(response.Body)`. -/
def ioutil.ReadAll (body : ReadCloser) : String × Option GoError := (body.data, body.err)

/-- What lies outside `apps.go`: `cmd.GetUrl`, the error `http.NewRequest` reports for
a URL it cannot parse, the `cmd.Doer` passed to `Run`, and the timestamp parser behind
`time.Time.UnmarshalJSON`. -/
structure Env where
  GetUrl : String → String
  urlError : String → Option GoError
  client : Request → Except GoError Response
  ParseTime : List Char → Option Time

/-- Source: `http.NewRequest(method, url, body)`: the request, or the error of parsing
the URL (the methods used here are all valid). -/
def http.NewRequest (env : Env) (method url : String) (body : Option String) :
    Except GoError Request :=
  match env.urlError url with
  | some err => .error err
  | none => .ok { Method := method, URL := url, Body := body }

/-- Source: `request.Header.Set(key, value)`. -/
def Request.HeaderSet (request : Request) (key value : String) : Request :=
  { request with Header := (key, value) :: request.Header.filter (fun kv => kv.1 ≠ key) }

/-- Source: `cmd.Context`, its positional arguments; writes to `context.Stdout` are
recorded in the trace of a run. -/
structure Context where
  Args : List String
  deriving DecidableEq, Repr

/-- Source: `cmd.Info`. -/
structure Info where
  Name : String
  Usage : String
  Desc : String
  MinArgs : Nat := 0
  deriving DecidableEq, Repr

/-- Source: `cmd.Table`, the header row and the rows added to it. -/
structure Table where
  Headers : List String := []
  Rows : List (List String) := []
  deriving DecidableEq, Repr

/-- The observable effects of a run, in order. -/
inductive Event where
  /-- Source: `client.Do(request)`. -/
  | Do (request : Request)
  /-- Source: `ioutil.ReadAll(response.Body)`. -/
  | ReadAll
  /-- Source: the deferred `response.Body.Close()`. -/
  | Close
  /-- Source: `io.WriteString(context.Stdout, s)` or `context.Stdout.Write([]byte(s))`. -/
  | Write (s : String)
  /-- Source: `context.Stdout.Write(table.Bytes())`. -/
  | WriteTable (table : Table)
  deriving DecidableEq, Repr

/-- How a run ends: the `error` it returns (`nil` or an error), or a run-time panic. -/
inductive Outcome where
  | nil
  | err (e : GoError)
  | panic (msg : String)
  deriving DecidableEq, Repr

/-- A finished run. -/
structure Exec where
  ret : Outcome
  trace : List Event
  deriving DecidableEq, Repr

/-- The requests a run sent through the transport. -/
def Exec.requests (x : Exec) : List Request :=
  x.trace.filterMap fun ev => match ev with
    | .Do request => some request
    | _ => none

/-! ## The commands -/

/-- Source: `(c *AppGrant) Info`. -/
def AppGrant.Info : Info :=
  { Name := "app-grant", Usage := "app-grant <appname> <teamname>",
    Desc := "grants access to an app to a team.", MinArgs := 2 }

/-- Source: `(c *AppGrant) Run`. -/
def AppGrant.Run (env : Env) (context : Context) : Exec :=
  match context.Args[0]?, context.Args[1]? with
  | some appName, some teamName =>
    let url := env.GetUrl ("/apps/" ++ appName ++ "/" ++ teamName)
    match http.NewRequest env "PUT" url none with
    | .error err => ⟨.err err, []⟩
    | .ok request =>
      match env.client request with
      | .error err => ⟨.err err, [.Do request]⟩
      | .ok _ =>
        ⟨.nil, [.Do request,
          .Write ("Team \"" ++ teamName ++ "\" was added to the \"" ++ appName ++ "\" app\n")]⟩
  | _, _ => ⟨.panic "index out of range", []⟩

/-- Source: `(c *AppRevoke) Info`. -/
def AppRevoke.Info : Info :=
  { Name := "app-revoke", Usage := "app-revoke <appname> <teamname>",
    Desc := "revokes access to an app from a team.", MinArgs := 2 }

/-- Source: `(c *AppRevoke) Run`. -/
def AppRevoke.Run (env : Env) (context : Context) : Exec :=
  match context.Args[0]?, context.Args[1]? with
  | some appName, some teamName =>
    let url := env.GetUrl ("/apps/" ++ appName ++ "/" ++ teamName)
    match http.NewRequest env "DELETE" url none with
    | .error err => ⟨.err err, []⟩
    | .ok request =>
      match env.client request with
      | .error err => ⟨.err err, [.Do request]⟩
      | .ok _ =>
        ⟨.nil, [.Do request,
          .Write ("Team \"" ++ teamName ++ "\" was removed from the \"" ++ appName ++ "\" app\n")]⟩
  | _, _ => ⟨.panic "index out of range", []⟩

/-- Source: the loop body of `(c *AppList) Show`: the row of one application. -/
def AppList.row (app : AppModel) : List String :=
  let ip := if app.Units.elems.length > 0 then (app.Units.elems.headD {}).Ip else ""
  [app.Name, app.State, ip]

/-- Source: `(c *AppList) Show`. -/
def AppList.Show (result : String) (_context : Context) : Exec :=
  match json.Unmarshal_apps result with
  | .error err => ⟨.err err, []⟩
  | .ok apps =>
    let table : Table :=
      { Headers := ["Application", "State", "Ip"], Rows := apps.map AppList.row }
    ⟨.nil, [.WriteTable table]⟩

/-- Source: `(c *AppList) Run`. -/
def AppList.Run (env : Env) (context : Context) : Exec :=
  match http.NewRequest env "GET" (env.GetUrl "/apps") none with
  | .error err => ⟨.err err, []⟩
  | .ok request =>
    match env.client request with
    | .error err => ⟨.err err, [.Do request]⟩
    | .ok response =>
      if response.StatusCode = StatusNoContent then ⟨.nil, [.Do request]⟩
      else
        match ioutil.ReadAll response.Body with
        | (_, some err) => ⟨.err err, [.Do request, .ReadAll, .Close]⟩
        | (result, none) =>
          let shown := AppList.Show result context
          ⟨shown.ret, [.Do request, .ReadAll] ++ shown.trace ++ [.Close]⟩

/-- Source: `(c *AppList) Info`. -/
def AppList.Info : Info :=
  { Name := "app-list", Usage := "app-list", Desc := "list all your apps." }

/-- Source: the request body of `(c *AppCreate) Run`,
`fmt.Sprintf("{\"name\":\"%s\", \"framework\":\"%s\"}", appName, framework)`. -/
def AppCreate.body (appName framework : String) : String :=
  "\x7b\"name\":\"" ++ appName ++ "\", \"framework\":\"" ++ framework ++ "\"\x7d"

/-- Source: `(c *AppCreate) Run`. The header is set on the request before the error of
`http.NewRequest` is looked at; with an error the request is nil and the call panics. -/
def AppCreate.Run (env : Env) (context : Context) : Exec :=
  match context.Args[0]?, context.Args[1]? with
  | some appName, some framework =>
    let b := AppCreate.body appName framework
    match http.NewRequest env "POST" (env.GetUrl "/apps") (some b) with
    | .error _ => ⟨.panic "invalid memory address or nil pointer dereference", []⟩
    | .ok request0 =>
      let request := request0.HeaderSet "Content-Type" "application/json"
      match env.client request with
      | .error err => ⟨.err err, [.Do request]⟩
      | .ok response =>
        match ioutil.ReadAll response.Body with
        | (_, some err) => ⟨.err err, [.Do request, .ReadAll, .Close]⟩
        | (result, none) =>
          match json.Unmarshal_out result with
          | .error err => ⟨.err err, [.Do request, .ReadAll, .Close]⟩
          | .ok out =>
            ⟨.nil, [.Do request, .ReadAll,
              .Write ("App \"" ++ appName ++ "\" successfully created!\n"),
              .Write ("Your repository for \"" ++ appName ++ "\" project is \""
                ++ mapIndex out "repository_url" ++ "\"" ++ "\n"),
              .Close]⟩
  | _, _ => ⟨.panic "index out of range", []⟩

/-- Source: `(c *AppCreate) Info`. -/
def AppCreate.Info : Info :=
  { Name := "app-create", Usage := "app-create <appname> <framework>",
    Desc := "create a new app.", MinArgs := 2 }

/-- Source: `(c *AppRemove) Info`. -/
def AppRemove.Info : Info :=
  { Name := "app-remove", Usage := "app-remove <appname>", Desc := "removes an app.",
    MinArgs := 1 }

/-- Source: `(c *AppRemove) Run`. -/
def AppRemove.Run (env : Env) (context : Context) : Exec :=
  match context.Args[0]? with
  | some appName =>
    let url := env.GetUrl ("/apps/" ++ appName)
    match http.NewRequest env "DELETE" url none with
    | .error err => ⟨.err err, []⟩
    | .ok request =>
      match env.client request with
      | .error err => ⟨.err err, [.Do request]⟩
      | .ok _ =>
        ⟨.nil, [.Do request, .Write ("App \"" ++ appName ++ "\" successfully removed!\n")]⟩
  | none => ⟨.panic "index out of range", []⟩

/-- Source: `(c *AppLog) Info`. -/
def AppLog.Info : Info :=
  { Name := "log", Usage := "log <appname>", Desc := "show logs for an app.", MinArgs := 1 }

/-- Source: `(c *AppLog) Run`. The error of `ioutil.ReadAll` is overwritten by the
result of `json.Unmarshal` without being looked at. -/
def AppLog.Run (env : Env) (context : Context) : Exec :=
  match context.Args[0]? with
  | some appName =>
    let url := env.GetUrl ("/apps/" ++ appName ++ "/log")
    match http.NewRequest env "GET" url none with
    | .error err => ⟨.err err, []⟩
    | .ok request =>
      match env.client request with
      | .error err => ⟨.err err, [.Do request]⟩
      | .ok response =>
        if response.StatusCode = StatusNoContent then ⟨.nil, [.Do request]⟩
        else
          let result := (ioutil.ReadAll response.Body).1
          match json.Unmarshal_logs env.ParseTime result with
          | .error err => ⟨.err err, [.Do request, .ReadAll, .Close]⟩
          | .ok logs =>
            ⟨.nil, [.Do request, .ReadAll]
              ++ logs.map (fun log => .Write (log.Date.String ++ " - " ++ log.Message ++ "\n"))
              ++ [.Close]⟩
  | none => ⟨.panic "index out of range", []⟩

/-- The command variants of `apps.go`. -/
inductive Command where
  | AppGrant | AppRevoke | AppList | AppCreate | AppRemove | AppLog
  deriving DecidableEq, Repr

/-- Source: the `Info` method of each variant. -/
def Command.Info : Command → Info
  | .AppGrant => Tsuru.AppGrant.Info
  | .AppRevoke => Tsuru.AppRevoke.Info
  | .AppList => Tsuru.AppList.Info
  | .AppCreate => Tsuru.AppCreate.Info
  | .AppRemove => Tsuru.AppRemove.Info
  | .AppLog => Tsuru.AppLog.Info

/-- Source: the `Run` method of each variant. -/
def Command.Run : Command → Env → Context → Exec
  | .AppGrant => Tsuru.AppGrant.Run
  | .AppRevoke => Tsuru.AppRevoke.Run
  | .AppList => Tsuru.AppList.Run
  | .AppCreate => Tsuru.AppCreate.Run
  | .AppRemove => Tsuru.AppRemove.Run
  | .AppLog => Tsuru.AppLog.Run

/-! ## A concrete environment -/

/-- One way `url.Parse` fails: a percent sign not followed by two hexadecimal digits
(`invalid URL escape`). -/
def hasBadEscape : List Char → Bool
  | [] => false
  | c :: rest =>
    if c = '%' then
      match rest with
      | a :: b :: rest2 => if (hexVal a).isSome ∧ (hexVal b).isSome then hasBadEscape rest2 else true
      | _ => true
    else hasBadEscape rest

/-- The URL error of `http.NewRequest` for a malformed percent escape. -/
def escapeError (url : String) : Option GoError :=
  if hasBadEscape url.data then some (.other "invalid URL escape") else none

/-- An environment with a configured target `base` (so that `cmd.GetUrl` is `base`
followed by the path), the escape check above, the RFC 3339 timestamp parser, and the
given transport. -/
def fakeEnv (base : String) (doer : Request → Except GoError Response) : Env :=
  { GetUrl := fun path => base ++ path
    urlError := escapeError
    client := doer
    ParseTime := parseRFC3339 }

/-- A transport that answers every request with the same response. -/
def respondWith (status : Nat) (data : String) (err : Option GoError) :
    Request → Except GoError Response :=
  fun _ => .ok { StatusCode := status, Body := { data := data, err := err } }

/-- A transport that fails every request with the same error. -/
def failWith (e : GoError) : Request → Except GoError Response :=
  fun _ => .error e

/-! ## Records on the wire -/

/-- The values of the members of a JSON object whose key names the field `field`
(given in lower case), exactly or up to letter case, in document order. Members with
other keys play no part. -/
def selecting (field : String) (ms : List (String × JSON)) : List JSON :=
  (ms.filter fun kv => equalFold kv.1 field).map Prod.snd

/-- The Go string a JSON string value stands for. -/
def stringValue : JSON → Option String
  | .str raw => some (unquote raw)
  | _ => none

/-- The time a JSON string value stands for, when its text is a timestamp. -/
def timeValue (parseTime : List Char → Option Time) : JSON → Option Time
  | .str raw => parseTime raw
  | _ => none

/-- What the last of the values `vs` stands for, or `dflt` when there is none. -/
def lastOr {α : Type} (value : JSON → Option α) (dflt : α) (vs : List JSON) : α :=
  match vs.getLast? with
  | some v => (value v).getD dflt
  | none => dflt

/-- The text of the string field `field` of an object: that of its last member naming
the field, the empty string when no member does. -/
def textOf (field : String) (ms : List (String × JSON)) : String :=
  lastOr stringValue "" (selecting field ms)

/-- A unit record: an object in which every member naming `ip` is a string. -/
def isUnit : JSON → Bool
  | .obj ums => (selecting "ip" ums).all fun v => (stringValue v).isSome
  | _ => false

/-- A units sequence: an array of unit records, or `null` for no units. -/
def isUnits : JSON → Bool
  | .arr us => us.all isUnit
  | .null => true
  | _ => false

/-- An Application record: an object in which every member naming `name` or `state`
is a string and at most one member names `units`, which is then a units sequence.
Members may come in any order, any of the three may be missing, and members with other
keys are allowed. (An object naming `units` twice is left out: the second array is
decoded over the elements of the first, so it is no plain record.) -/
def isApplication : JSON → Bool
  | .obj ms =>
    ((selecting "name" ms).all fun v => (stringValue v).isSome)
      && ((selecting "state" ms).all fun v => (stringValue v).isSome)
      && (selecting "units" ms).all isUnits
      && decide ((selecting "units" ms).length ≤ 1)
  | _ => false

/-- The ip of the first unit of an Application record, the empty string when its
units sequence is missing or empty. -/
def firstIp (ms : List (String × JSON)) : String :=
  match selecting "units" ms with
  | [.arr (.obj ums :: _)] => textOf "ip" ums
  | _ => ""

/-- The table row of an Application record: its name, its state and the ip of its
first unit. -/
def applicationRow : JSON → List String
  | .obj ms => [textOf "name" ms, textOf "state" ms, firstIp ms]
  | _ => []

/-- A log entry: an object in which every member naming `date` is a string holding a
timestamp and every member naming `message` is a string. Members may come in any
order, either may be missing, and members with other keys are allowed. -/
def isEntry (parseTime : List Char → Option Time) : JSON → Bool
  | .obj ms =>
    ((selecting "date" ms).all fun v => (timeValue parseTime v).isSome)
      && (selecting "message" ms).all fun v => (stringValue v).isSome
  | _ => false

/-- The output line of a log entry: the `String()` form of its date (of the zero time
when the entry has no date), ` - `, its message and a newline. -/
def entryLine (parseTime : List Char → Option Time) : JSON → String
  | .obj ms =>
    (lastOr (timeValue parseTime) {} (selecting "date" ms)).String ++ " - "
      ++ textOf "message" ms ++ "\n"
  | _ => ""

/-- The `Units` a unit record decodes into. -/
def unitOf : JSON → Units
  | .obj ums => { Ip := textOf "ip" ums }
  | _ => {}

/-- The `[]Units` the members naming `units` decode into. -/
def sliceOf : List JSON → GoSlice Units
  | [.arr us] => { elems := us.map unitOf, spare := [] }
  | _ => {}

/-- The `AppModel` an Application record decodes into. -/
def modelOf : JSON → AppModel
  | .obj ms =>
    { Name := textOf "name" ms, State := textOf "state" ms,
      Units := sliceOf (selecting "units" ms) }
  | _ => {}

/-- The `Log` a log entry decodes into. -/
def logOf (parseTime : List Char → Option Time) : JSON → Log
  | .obj ms =>
    { Date := lastOr (timeValue parseTime) {} (selecting "date" ms),
      Message := textOf "message" ms }
  | _ => {}

/-! ## Decoding lemmas -/

theorem selecting_cons (field k : String) (v : JSON) (ms : List (String × JSON)) :
    selecting field ((k, v) :: ms)
      = if equalFold k field = true then v :: selecting field ms else selecting field ms := by
  unfold selecting
  by_cases h : equalFold k field = true
  · simp [List.filter_cons, h]
  · simp [List.filter_cons, h]

theorem equalFold_disjoint {k f g : String} (hfg : f.data ≠ g.data)
    (hf : equalFold k f = true) : equalFold k g = false := by
  unfold equalFold at hf ⊢
  simp only [decide_eq_true_eq] at hf
  simp only [decide_eq_false_iff_not]
  intro hg
  exact hfg (hf.symm.trans hg)

theorem lastOr_nil {α : Type} (value : JSON → Option α) (dflt : α) :
    lastOr value dflt [] = dflt := rfl

theorem lastOr_cons {α : Type} (value : JSON → Option α) (dflt a : α) (v : JSON)
    (vs : List JSON) (hv : value v = some a)
    (hvs : (vs.all fun x => (value x).isSome) = true) :
    lastOr value dflt (v :: vs) = lastOr value a vs := by
  cases vs with
  | nil => simp [lastOr, hv]
  | cons b l =>
    have hlast : ∃ x, (b :: l).getLast? = some x := by
      cases h : (b :: l).getLast? with
      | none => simp at h
      | some x => exact ⟨x, rfl⟩
    obtain ⟨x, hx⟩ := hlast
    have hmem : x ∈ b :: l := List.mem_of_getLast?_eq_some hx
    have hsome : (value x).isSome = true := (List.all_eq_true.mp hvs) x hmem
    obtain ⟨y, hy⟩ := Option.isSome_iff_exists.mp hsome
    simp only [lastOr, List.getLast?_cons_cons, hx, hy, Option.getD_some]

theorem decodeString_value {v : JSON} {a : String} (cur : String) (hv : stringValue v = some a) :
    decodeString cur v = some a := by
  cases v <;> simp [stringValue] at hv
  simp [decodeString, hv]

theorem decodeTime_value {parseTime : List Char → Option Time} {v : JSON} {t : Time}
    (cur : Time) (hv : timeValue parseTime v = some t) :
    decodeTime parseTime cur v = some t := by
  cases v <;> simp [timeValue] at hv
  simp [decodeTime, hv]

theorem decodeUnitsMembers_typed (cur : Units) (ums : List (String × JSON))
    (h : ((selecting "ip" ums).all fun v => (stringValue v).isSome) = true) :
    decodeUnitsMembers cur ums
      = some { Ip := lastOr stringValue cur.Ip (selecting "ip" ums) } := by
  induction ums generalizing cur with
  | nil => rfl
  | cons kv rest ih =>
    obtain ⟨k, v⟩ := kv
    rw [selecting_cons] at h ⊢
    by_cases hk : equalFold k "ip" = true
    · simp only [hk, if_true, List.all_cons, Bool.and_eq_true] at h ⊢
      obtain ⟨a, ha⟩ := Option.isSome_iff_exists.mp h.1
      rw [lastOr_cons stringValue cur.Ip a v _ ha h.2]
      simp only [decodeUnitsMembers, hk, if_true, decodeString_value cur.Ip ha]
      exact ih { cur with Ip := a } h.2
    · simp only [hk] at h ⊢
      simp only [decodeUnitsMembers, hk]
      exact ih cur h

theorem decodeUnits_typed (u : JSON) (h : isUnit u = true) :
    decodeUnits {} u = some (unitOf u) := by
  cases u <;> simp [isUnit] at h
  rename_i ums
  have hu : ((selecting "ip" ums).all fun v => (stringValue v).isSome) = true := by
    simpa using h
  simp only [decodeUnits, unitOf, textOf]
  exact decodeUnitsMembers_typed {} ums hu

theorem decodeUnitsElems_typed (us : List JSON) (h : us.all isUnit = true) :
    decodeUnitsElems [] us = some (us.map unitOf) := by
  induction us with
  | nil => rfl
  | cons u rest ih =>
    simp only [List.all_cons, Bool.and_eq_true] at h
    simp only [decodeUnitsElems, List.headD_nil, List.tail_nil, decodeUnits_typed u h.1,
      ih h.2, List.map_cons]

theorem decodeUnitsSlice_typed (v : JSON) (h : isUnits v = true) :
    decodeUnitsSlice {} v = some (sliceOf [v]) := by
  cases v with
  | null => rfl
  | arr us =>
    have hus : us.all isUnit = true := by simpa [isUnits] using h
    cases us with
    | nil => rfl
    | cons u rest =>
      have hdec := decodeUnitsElems_typed (u :: rest) hus
      simp only [decodeUnitsSlice, List.append_nil, hdec, List.drop_nil, sliceOf]
  | bool b => simp [isUnits] at h
  | num lit => simp [isUnits] at h
  | str raw => simp [isUnits] at h
  | obj ms => simp [isUnits] at h

theorem decodeAppModelMembers_no_units (cur : AppModel) (ms : List (String × JSON))
    (hn : ((selecting "name" ms).all fun v => (stringValue v).isSome) = true)
    (hs : ((selecting "state" ms).all fun v => (stringValue v).isSome) = true)
    (hu : selecting "units" ms = []) :
    decodeAppModelMembers cur ms
      = some { Name := lastOr stringValue cur.Name (selecting "name" ms),
               State := lastOr stringValue cur.State (selecting "state" ms),
               Units := cur.Units } := by
  induction ms generalizing cur with
  | nil => rfl
  | cons kv rest ih =>
    obtain ⟨k, v⟩ := kv
    rw [selecting_cons] at hn hs hu
    rw [selecting_cons "name", selecting_cons "state"]
    by_cases hk1 : equalFold k "name" = true
    · have hk2 : equalFold k "state" = false := equalFold_disjoint (by decide) hk1
      simp only [hk1, hk2, if_true, List.all_cons, Bool.and_eq_true, Bool.false_eq_true,
        if_false] at hn hs hu ⊢
      obtain ⟨a, ha⟩ := Option.isSome_iff_exists.mp hn.1
      rw [lastOr_cons stringValue cur.Name a v _ ha hn.2]
      simp only [decodeAppModelMembers, hk1, if_true, decodeString_value cur.Name ha]
      have hu2 : selecting "units" rest = [] := by
        have hk3 : equalFold k "units" = false := equalFold_disjoint (by decide) hk1
        simpa [hk3] using hu
      exact ih { cur with Name := a } hn.2 hs hu2
    · by_cases hk2 : equalFold k "state" = true
      · simp only [hk1, hk2, if_true, List.all_cons, Bool.and_eq_true, Bool.false_eq_true,
          if_false] at hn hs hu ⊢
        obtain ⟨a, ha⟩ := Option.isSome_iff_exists.mp hs.1
        rw [lastOr_cons stringValue cur.State a v _ ha hs.2]
        simp only [decodeAppModelMembers, hk1, hk2, if_true, Bool.false_eq_true, if_false,
          decodeString_value cur.State ha]
        have hu2 : selecting "units" rest = [] := by
          have hk3 : equalFold k "units" = false := equalFold_disjoint (by decide) hk2
          simpa [hk3] using hu
        exact ih { cur with State := a } hn hs.2 hu2
      · have hk3 : ¬ equalFold k "units" = true := by
          intro hk3
          simp [hk3] at hu
        simp only [hk1, hk2, hk3, Bool.false_eq_true, if_false] at hn hs hu ⊢
        simp only [decodeAppModelMembers, hk1, hk2, hk3, Bool.false_eq_true, if_false]
        exact ih cur hn hs hu

theorem decodeAppModelMembers_typed (cur : AppModel) (ms : List (String × JSON))
    (hn : ((selecting "name" ms).all fun v => (stringValue v).isSome) = true)
    (hs : ((selecting "state" ms).all fun v => (stringValue v).isSome) = true)
    (hu : (selecting "units" ms).all isUnits = true)
    (hone : (selecting "units" ms).length ≤ 1)
    (hcur : cur.Units = {}) :
    decodeAppModelMembers cur ms
      = some { Name := lastOr stringValue cur.Name (selecting "name" ms),
               State := lastOr stringValue cur.State (selecting "state" ms),
               Units := sliceOf (selecting "units" ms) } := by
  induction ms generalizing cur with
  | nil => simp [decodeAppModelMembers, selecting, lastOr, sliceOf, ← hcur]
  | cons kv rest ih =>
    obtain ⟨k, v⟩ := kv
    rw [selecting_cons] at hn hs hu hone
    rw [selecting_cons "name", selecting_cons "state", selecting_cons "units"]
    by_cases hk1 : equalFold k "name" = true
    · have hk2 : equalFold k "state" = false := equalFold_disjoint (by decide) hk1
      have hk3 : equalFold k "units" = false := equalFold_disjoint (by decide) hk1
      simp only [hk1, hk2, hk3, if_true, List.all_cons, Bool.and_eq_true, Bool.false_eq_true,
        if_false] at hn hs hu hone ⊢
      obtain ⟨a, ha⟩ := Option.isSome_iff_exists.mp hn.1
      rw [lastOr_cons stringValue cur.Name a v _ ha hn.2]
      simp only [decodeAppModelMembers, hk1, if_true, decodeString_value cur.Name ha]
      exact ih { cur with Name := a } hn.2 hs hu hone hcur
    · by_cases hk2 : equalFold k "state" = true
      · have hk3 : equalFold k "units" = false := equalFold_disjoint (by decide) hk2
        simp only [hk1, hk2, hk3, if_true, List.all_cons, Bool.and_eq_true, Bool.false_eq_true,
          if_false] at hn hs hu hone ⊢
        obtain ⟨a, ha⟩ := Option.isSome_iff_exists.mp hs.1
        rw [lastOr_cons stringValue cur.State a v _ ha hs.2]
        simp only [decodeAppModelMembers, hk1, hk2, if_true, Bool.false_eq_true, if_false,
          decodeString_value cur.State ha]
        exact ih { cur with State := a } hn hs.2 hu hone hcur
      · by_cases hk3 : equalFold k "units" = true
        · simp only [hk1, hk2, hk3, if_true, List.all_cons, Bool.and_eq_true,
            Bool.false_eq_true, if_false, List.length_cons] at hn hs hu hone ⊢
          have hrest : selecting "units" rest = [] := by
            apply List.eq_nil_of_length_eq_zero
            omega
          simp only [decodeAppModelMembers, hk1, hk2, hk3, if_true, Bool.false_eq_true,
            if_false, hcur, decodeUnitsSlice_typed v hu.1, hrest]
          exact decodeAppModelMembers_no_units { cur with Units := sliceOf [v] } rest hn hs hrest
        · simp only [hk1, hk2, hk3, Bool.false_eq_true, if_false] at hn hs hu hone ⊢
          simp only [decodeAppModelMembers, hk1, hk2, hk3, Bool.false_eq_true, if_false]
          exact ih cur hn hs hu hone hcur

theorem decodeAppModel_typed (v : JSON) (h : isApplication v = true) :
    decodeAppModel v = some (modelOf v) := by
  cases v <;> simp [isApplication] at h
  rename_i ms
  obtain ⟨⟨⟨hn, hs⟩, hu⟩, hone⟩ := h
  have hn2 : ((selecting "name" ms).all fun v => (stringValue v).isSome) = true := by
    simpa using hn
  have hs2 : ((selecting "state" ms).all fun v => (stringValue v).isSome) = true := by
    simpa using hs
  have hu2 : (selecting "units" ms).all isUnits = true := by simpa using hu
  simp only [decodeAppModel, modelOf, textOf]
  exact decodeAppModelMembers_typed {} ms hn2 hs2 hu2 hone rfl

theorem decodeAppModelElems_typed (vs : List JSON) (h : vs.all isApplication = true) :
    decodeAppModelElems vs = some (vs.map modelOf) := by
  induction vs with
  | nil => rfl
  | cons v rest ih =>
    simp only [List.all_cons, Bool.and_eq_true] at h
    simp only [decodeAppModelElems, decodeAppModel_typed v h.1, ih h.2, List.map_cons]

theorem row_modelOf (v : JSON) (h : isApplication v = true) :
    AppList.row (modelOf v) = applicationRow v := by
  cases v <;> simp [isApplication] at h
  rename_i ms
  obtain ⟨⟨⟨_, _⟩, hu⟩, hone⟩ := h
  simp only [AppList.row, modelOf, applicationRow, firstIp]
  match hsel : selecting "units" ms with
  | [] => simp [sliceOf]
  | [w] =>
    rw [hsel] at hu
    have hw : isUnits w = true := by simpa using hu
    cases w with
    | null => simp [sliceOf]
    | arr us =>
      cases us with
      | nil => simp [sliceOf]
      | cons u rest =>
        have hu1 : isUnit u = true := by
          have hall : (u :: rest).all isUnit = true := by simpa [isUnits] using hw
          exact (List.all_eq_true.mp hall) u (List.mem_cons_self u rest)
        cases u <;> simp [isUnit] at hu1
        simp [sliceOf, unitOf]
    | bool b => simp [isUnits] at hw
    | num lit => simp [isUnits] at hw
    | str raw => simp [isUnits] at hw
    | obj ms => simp [isUnits] at hw
  | _ :: _ :: _ =>
    rw [hsel] at hone
    simp at hone

theorem decodeLogMembers_typed (parseTime : List Char → Option Time) (cur : Log)
    (ms : List (String × JSON))
    (hd : ((selecting "date" ms).all fun v => (timeValue parseTime v).isSome) = true)
    (hm : ((selecting "message" ms).all fun v => (stringValue v).isSome) = true) :
    decodeLogMembers parseTime cur ms
      = some { Date := lastOr (timeValue parseTime) cur.Date (selecting "date" ms),
               Message := lastOr stringValue cur.Message (selecting "message" ms) } := by
  induction ms generalizing cur with
  | nil => rfl
  | cons kv rest ih =>
    obtain ⟨k, v⟩ := kv
    rw [selecting_cons] at hd hm
    rw [selecting_cons "date", selecting_cons "message"]
    by_cases hk1 : equalFold k "date" = true
    · have hk2 : equalFold k "message" = false := equalFold_disjoint (by decide) hk1
      simp only [hk1, hk2, if_true, List.all_cons, Bool.and_eq_true, Bool.false_eq_true,
        if_false] at hd hm ⊢
      obtain ⟨t, ht⟩ := Option.isSome_iff_exists.mp hd.1
      rw [lastOr_cons (timeValue parseTime) cur.Date t v _ ht hd.2]
      simp only [decodeLogMembers, hk1, if_true, decodeTime_value cur.Date ht]
      exact ih { cur with Date := t } hd.2 hm
    · by_cases hk2 : equalFold k "message" = true
      · simp only [hk1, hk2, if_true, List.all_cons, Bool.and_eq_true, Bool.false_eq_true,
          if_false] at hd hm ⊢
        obtain ⟨a, ha⟩ := Option.isSome_iff_exists.mp hm.1
        rw [lastOr_cons stringValue cur.Message a v _ ha hm.2]
        simp only [decodeLogMembers, hk1, hk2, if_true, Bool.false_eq_true, if_false,
          decodeString_value cur.Message ha]
        exact ih { cur with Message := a } hd hm.2
      · simp only [hk1, hk2, Bool.false_eq_true, if_false] at hd hm ⊢
        simp only [decodeLogMembers, hk1, hk2, Bool.false_eq_true, if_false]
        exact ih cur hd hm

theorem decodeLog_typed (parseTime : List Char → Option Time) (v : JSON)
    (h : isEntry parseTime v = true) :
    decodeLog parseTime v = some (logOf parseTime v) := by
  cases v <;> simp [isEntry] at h
  rename_i ms
  have hd : ((selecting "date" ms).all fun v => (timeValue parseTime v).isSome) = true := by
    simpa using h.1
  have hm : ((selecting "message" ms).all fun v => (stringValue v).isSome) = true := by
    simpa using h.2
  simp only [decodeLog, logOf, textOf]
  exact decodeLogMembers_typed parseTime {} ms hd hm

theorem decodeLogElems_typed (parseTime : List Char → Option Time) (vs : List JSON)
    (h : vs.all (isEntry parseTime) = true) :
    decodeLogElems parseTime vs = some (vs.map (logOf parseTime)) := by
  induction vs with
  | nil => rfl
  | cons v rest ih =>
    simp only [List.all_cons, Bool.and_eq_true] at h
    simp only [decodeLogElems, decodeLog_typed parseTime v h.1, ih h.2, List.map_cons]

theorem line_logOf (parseTime : List Char → Option Time) (v : JSON)
    (h : isEntry parseTime v = true) :
    (logOf parseTime v).Date.String ++ " - " ++ (logOf parseTime v).Message ++ "\n"
      = entryLine parseTime v := by
  cases v <;> simp [isEntry] at h
  rfl

/-! ## C1: the table of `app-list` -/

/-- C1. For every body that is a JSON array of `n ≥ 0` Application records (objects
with string `name` and `state` and a `units` array of objects with a string `ip`, the
members in any order and under any letter case, any of them missing, other members
allowed), `AppList.Show` returns nil and hands the table renderer the header row
`Application, State, Ip` followed by one row per record, in input order: the record's
name, state, and the ip of its first unit, or the empty string when it has no unit. -/
theorem AppList_Show_renders_rows (result : String) (context : Context)
    (records : List JSON)
    (hbody : parseJSON result = some (JSON.arr records))
    (hrecords : records.all isApplication = true) :
    AppList.Show result context
      = ⟨.nil, [.WriteTable { Headers := ["Application", "State", "Ip"],
                              Rows := records.map applicationRow }]⟩ := by
  have hrows : List.map (AppList.row ∘ modelOf) records = List.map applicationRow records := by
    apply List.map_congr_left
    intro v hv
    exact row_modelOf v ((List.all_eq_true.mp hrecords) v hv)
  simp [AppList.Show, json.Unmarshal_apps, hbody, decodeAppModelElems_typed records hrecords,
    hrows]

/-- C1 at a body of five records: one in wire order with two units, one with its
members reordered and an empty units sequence, one without units, one with upper-case
keys and an extra member, and one whose units are `null`. -/
theorem AppList_Show_renders_rows_witness :
    AppList.Show
      "[\x7b\"name\":\"blog\",\"state\":\"started\",\"units\":[\x7b\"ip\":\"10.0.0.1\"\x7d,\x7b\"ip\":\"10.0.0.2\"\x7d]\x7d, \x7b\"units\":[],\"state\":\"pending\",\"name\":\"wiki\"\x7d, \x7b\"name\":\"shop\",\"state\":\"stopped\"\x7d, \x7b\"Name\":\"api\",\"teams\":[\"admin\"],\"STATE\":\"started\",\"Units\":[\x7b\"Ip\":\"10.0.0.3\"\x7d]\x7d, \x7b\"name\":\"cron\",\"state\":\"started\",\"units\":null\x7d]"
      ⟨[]⟩
      = ⟨.nil, [.WriteTable { Headers := ["Application", "State", "Ip"],
                              Rows := [["blog", "started", "10.0.0.1"],
                                       ["wiki", "pending", ""],
                                       ["shop", "stopped", ""],
                                       ["api", "started", "10.0.0.3"],
                                       ["cron", "started", ""]] }]⟩ :=
  AppList_Show_renders_rows _ ⟨[]⟩
    [JSON.obj [("name", JSON.str "blog".data), ("state", JSON.str "started".data),
       ("units", JSON.arr [JSON.obj [("ip", JSON.str "10.0.0.1".data)],
                           JSON.obj [("ip", JSON.str "10.0.0.2".data)]])],
     JSON.obj [("units", JSON.arr []), ("state", JSON.str "pending".data),
       ("name", JSON.str "wiki".data)],
     JSON.obj [("name", JSON.str "shop".data), ("state", JSON.str "stopped".data)],
     JSON.obj [("Name", JSON.str "api".data), ("teams", JSON.arr [JSON.str "admin".data]),
       ("STATE", JSON.str "started".data),
       ("Units", JSON.arr [JSON.obj [("Ip", JSON.str "10.0.0.3".data)]])],
     JSON.obj [("name", JSON.str "cron".data), ("state", JSON.str "started".data),
       ("units", JSON.null)]]
    (by rfl) (by rfl)

/-! ## What a first transport call tells about a run -/

theorem AppGrant_sent {env : Env} {context : Context} {request : Request}
    (h : (AppGrant.Run env context).trace.head? = some (.Do request)) :
    ∃ appName teamName, context.Args[0]? = some appName ∧ context.Args[1]? = some teamName
      ∧ http.NewRequest env "PUT" (env.GetUrl ("/apps/" ++ appName ++ "/" ++ teamName)) none
          = .ok request := by
  unfold AppGrant.Run at h
  split at h
  · rename_i appName teamName h0 h1
    refine ⟨appName, teamName, h0, h1, ?_⟩
    simp only at h
    split at h
    · simp at h
    · rename_i req hreq
      split at h <;> simp at h <;> rw [hreq, h]
  · simp at h

theorem AppRevoke_sent {env : Env} {context : Context} {request : Request}
    (h : (AppRevoke.Run env context).trace.head? = some (.Do request)) :
    ∃ appName teamName, context.Args[0]? = some appName ∧ context.Args[1]? = some teamName
      ∧ http.NewRequest env "DELETE" (env.GetUrl ("/apps/" ++ appName ++ "/" ++ teamName)) none
          = .ok request := by
  unfold AppRevoke.Run at h
  split at h
  · rename_i appName teamName h0 h1
    refine ⟨appName, teamName, h0, h1, ?_⟩
    simp only at h
    split at h
    · simp at h
    · rename_i req hreq
      split at h <;> simp at h <;> rw [hreq, h]
  · simp at h

theorem AppRemove_sent {env : Env} {context : Context} {request : Request}
    (h : (AppRemove.Run env context).trace.head? = some (.Do request)) :
    ∃ appName, context.Args[0]? = some appName
      ∧ http.NewRequest env "DELETE" (env.GetUrl ("/apps/" ++ appName)) none = .ok request := by
  unfold AppRemove.Run at h
  split at h
  · rename_i appName h0
    refine ⟨appName, h0, ?_⟩
    simp only at h
    split at h
    · simp at h
    · rename_i req hreq
      split at h <;> simp at h <;> rw [hreq, h]
  · simp at h

theorem AppList_sent {env : Env} {context : Context} {request : Request}
    (h : (AppList.Run env context).trace.head? = some (.Do request)) :
    http.NewRequest env "GET" (env.GetUrl "/apps") none = .ok request := by
  unfold AppList.Run at h
  split at h
  · simp at h
  · rename_i req hreq
    split at h
    · simp at h; rw [hreq, h]
    · split at h
      · simp at h; rw [hreq, h]
      · split at h <;> simp at h <;> rw [hreq, h]

theorem AppLog_sent {env : Env} {context : Context} {request : Request}
    (h : (AppLog.Run env context).trace.head? = some (.Do request)) :
    ∃ appName, context.Args[0]? = some appName
      ∧ http.NewRequest env "GET" (env.GetUrl ("/apps/" ++ appName ++ "/log")) none
          = .ok request := by
  unfold AppLog.Run at h
  split at h
  · rename_i appName h0
    refine ⟨appName, h0, ?_⟩
    simp only at h
    split at h
    · simp at h
    · rename_i req hreq
      split at h
      · simp at h; rw [hreq, h]
      · split at h
        · simp at h; rw [hreq, h]
        · split at h <;> simp at h <;> rw [hreq, h]
  · simp at h

theorem AppCreate_sent {env : Env} {context : Context} {request : Request}
    (h : (AppCreate.Run env context).trace.head? = some (.Do request)) :
    ∃ appName framework request0, context.Args[0]? = some appName
      ∧ context.Args[1]? = some framework
      ∧ http.NewRequest env "POST" (env.GetUrl "/apps") (some (AppCreate.body appName framework))
          = .ok request0
      ∧ request = request0.HeaderSet "Content-Type" "application/json" := by
  unfold AppCreate.Run at h
  split at h
  · rename_i appName framework h0 h1
    simp only at h
    split at h
    · simp at h
    · rename_i req hreq
      refine ⟨appName, framework, req, h0, h1, hreq, ?_⟩
      split at h
      · simp at h; rw [h]
      · split at h
        · simp at h; rw [h]
        · split at h <;> simp at h <;> rw [h]
  · simp at h

/-! ## C2: the no-content status -/

/-- C2. For `AppList.Run` and `AppLog.Run`: when the run calls the transport with
`request` and the transport answers with a response of status 204 No Content, whatever
its body holds, the run returns nil and its whole trace is that one call: nothing is
written, and the body is neither read (no `ReadAll`) nor therefore decoded. -/
theorem Run_no_content (c : Command) (env : Env) (context : Context) (request : Request)
    (response : Response)
    (hc : c = .AppList ∨ c = .AppLog)
    (hsent : (c.Run env context).trace.head? = some (.Do request))
    (hdo : env.client request = .ok response)
    (hstatus : response.StatusCode = StatusNoContent) :
    c.Run env context = ⟨.nil, [.Do request]⟩ := by
  rcases hc with rfl | rfl
  · have hreq := AppList_sent hsent
    simp [Command.Run, AppList.Run, hreq, hdo, hstatus]
  · obtain ⟨appName, h0, hreq⟩ := AppLog_sent hsent
    simp [Command.Run, AppLog.Run, h0, hreq, hdo, hstatus]

/-- C2 at `log myapp` answered with status 204 and a body that is not JSON. -/
theorem Run_no_content_witness :
    Command.Run .AppLog (fakeEnv "http://localhost:8080" (respondWith 204 "<html>" none))
        ⟨["myapp"]⟩
      = ⟨.nil, [.Do { Method := "GET", URL := "http://localhost:8080/apps/myapp/log",
                      Body := none }]⟩ :=
  Run_no_content .AppLog (fakeEnv "http://localhost:8080" (respondWith 204 "<html>" none))
    ⟨["myapp"]⟩ { Method := "GET", URL := "http://localhost:8080/apps/myapp/log", Body := none }
    { StatusCode := 204, Body := { data := "<html>", err := none } }
    (Or.inr rfl) (by rfl) (by rfl) (by rfl)

/-! ## C4: transport failure -/

/-- C4. For every command variant and every argument list: when the run calls the
transport with `request` and that call fails with error `e`, the run returns exactly
`e` and its whole trace is that one call, so there is no further transport call and
nothing is written. -/
theorem Run_transport_error (c : Command) (env : Env) (context : Context) (request : Request)
    (e : GoError)
    (hsent : (c.Run env context).trace.head? = some (.Do request))
    (hdo : env.client request = .error e) :
    c.Run env context = ⟨.err e, [.Do request]⟩ := by
  cases c
  · obtain ⟨appName, teamName, h0, h1, hreq⟩ := AppGrant_sent hsent
    simp [Command.Run, AppGrant.Run, h0, h1, hreq, hdo]
  · obtain ⟨appName, teamName, h0, h1, hreq⟩ := AppRevoke_sent hsent
    simp [Command.Run, AppRevoke.Run, h0, h1, hreq, hdo]
  · have hreq := AppList_sent hsent
    simp [Command.Run, AppList.Run, hreq, hdo]
  · obtain ⟨appName, framework, request0, h0, h1, hreq, hset⟩ := AppCreate_sent hsent
    subst hset
    simp [Command.Run, AppCreate.Run, h0, h1, hreq, hdo]
  · obtain ⟨appName, h0, hreq⟩ := AppRemove_sent hsent
    simp [Command.Run, AppRemove.Run, h0, hreq, hdo]
  · obtain ⟨appName, h0, hreq⟩ := AppLog_sent hsent
    simp [Command.Run, AppLog.Run, h0, hreq, hdo]

/-- C4 at `app-create blog python` with a transport that refuses the connection. -/
theorem Run_transport_error_witness :
    Command.Run .AppCreate
        (fakeEnv "http://localhost:8080" (failWith (.other "connection refused")))
        ⟨["blog", "python"]⟩
      = ⟨.err (.other "connection refused"),
         [.Do { Method := "POST", URL := "http://localhost:8080/apps",
                Body := some "\x7b\"name\":\"blog\", \"framework\":\"python\"\x7d",
                Header := [("Content-Type", "application/json")] }]⟩ :=
  Run_transport_error .AppCreate
    (fakeEnv "http://localhost:8080" (failWith (.other "connection refused")))
    ⟨["blog", "python"]⟩
    { Method := "POST", URL := "http://localhost:8080/apps",
      Body := some "\x7b\"name\":\"blog\", \"framework\":\"python\"\x7d",
      Header := [("Content-Type", "application/json")] }
    (.other "connection refused") (by rfl) (by rfl)

/-! ## C3: bodies that are not arrays -/

/-- C3, as stated, fails at the body `null`: it is not a JSON array, yet `json.Unmarshal`
leaves the slice nil without error, so `AppList.Show` returns nil and writes a table
with the header row and no data row. -/
theorem AppList_Show_null_renders_header :
    parseJSON "null" = some JSON.null
      ∧ AppList.Show "null" ⟨[]⟩
        = ⟨.nil, [.WriteTable { Headers := ["Application", "State", "Ip"], Rows := [] }]⟩ :=
  ⟨by rfl, by rfl⟩

/-- C3, amended. For every body that is unparseable text, or a JSON value that is
neither an array nor the literal `null` (an object, a number, a string, a boolean),
`AppList.Show` returns a decode error and has no effect at all: nothing is written and
no table is rendered. -/
theorem AppList_Show_not_array (result : String) (context : Context)
    (hbody : parseJSON result = none
      ∨ ∃ v, parseJSON result = some v ∧ v ≠ JSON.null ∧ ∀ vs, v ≠ JSON.arr vs) :
    ∃ e, e.isDecodeError = true ∧ AppList.Show result context = ⟨.err e, []⟩ := by
  rcases hbody with h | ⟨v, h, hnull, harr⟩
  · exact ⟨.syntaxError, rfl, by simp [AppList.Show, json.Unmarshal_apps, h]⟩
  · refine ⟨.unmarshalError, rfl, ?_⟩
    cases v with
    | null => exact absurd rfl hnull
    | arr vs => exact absurd rfl (harr vs)
    | bool b => simp [AppList.Show, json.Unmarshal_apps, h]
    | num lit => simp [AppList.Show, json.Unmarshal_apps, h]
    | str raw => simp [AppList.Show, json.Unmarshal_apps, h]
    | obj ms => simp [AppList.Show, json.Unmarshal_apps, h]

/-- C3, amended, at a bare object. -/
theorem AppList_Show_not_array_witness :
    ∃ e, e.isDecodeError = true
      ∧ AppList.Show "\x7b\"name\":\"blog\",\"state\":\"started\"\x7d" ⟨[]⟩ = ⟨.err e, []⟩ :=
  AppList_Show_not_array "\x7b\"name\":\"blog\",\"state\":\"started\"\x7d" ⟨[]⟩
    (Or.inr ⟨JSON.obj [("name", JSON.str "blog".data), ("state", JSON.str "started".data)],
      (by rfl), (by intro h; cases h), (by intro vs h; cases h)⟩)

/-! ## C7: the lines of `log` -/

/-- C7. For every app and every response to `log <app>` whose status is not 204 and
whose body is a JSON array of `n ≥ 0` entries (objects with a timestamp string `date`
and a string `message`, the members in any order and under any letter case, either
missing, other members allowed), `AppLog.Run` returns nil and writes, in received
order and with nothing else, one chunk per entry: the `String()` form of its date,
` - `, its message and a newline. (The empty array gives no write at all.) -/
theorem AppLog_Run_writes_lines (env : Env) (appName : String) (rest : List String)
    (request : Request) (response : Response) (entries : List JSON)
    (hsent : (AppLog.Run env ⟨appName :: rest⟩).trace.head? = some (.Do request))
    (hdo : env.client request = .ok response)
    (hstatus : response.StatusCode ≠ StatusNoContent)
    (hbody : parseJSON response.Body.data = some (JSON.arr entries))
    (hentries : entries.all (isEntry env.ParseTime) = true) :
    AppLog.Run env ⟨appName :: rest⟩
      = ⟨.nil, [.Do request, .ReadAll]
          ++ entries.map (fun v => .Write (entryLine env.ParseTime v)) ++ [.Close]⟩ := by
  obtain ⟨app, h0, hreq⟩ := AppLog_sent hsent
  have hdec := decodeLogElems_typed env.ParseTime entries hentries
  have hlines : List.map
      ((fun log : Log => Event.Write (log.Date.String ++ " - " ++ log.Message ++ "\n"))
        ∘ logOf env.ParseTime) entries
      = List.map (fun v => Event.Write (entryLine env.ParseTime v)) entries := by
    apply List.map_congr_left
    intro v hv
    simp only [Function.comp_apply]
    rw [line_logOf env.ParseTime v ((List.all_eq_true.mp hentries) v hv)]
  simp only [List.getElem?_cons_zero, Option.some.injEq] at h0
  subst h0
  simp only [AppLog.Run, List.getElem?_cons_zero, hreq, hdo, hstatus, if_false,
    ioutil.ReadAll, json.Unmarshal_logs, hbody, hdec, List.map_map, hlines]

/-- C7 at the body `[{"date":"2014-01-01T00:00:00Z","message":"started"}]` followed by
an entry with its members swapped, upper-case keys and an extra member. -/
theorem AppLog_Run_writes_lines_witness :
    AppLog.Run
        (fakeEnv "http://localhost:8080"
          (respondWith 200 "[\x7b\"date\":\"2014-01-01T00:00:00Z\",\"message\":\"started\"\x7d, \x7b\"Message\":\"stopped\",\"source\":\"web\",\"Date\":\"2014-01-01T00:00:05Z\"\x7d]" none))
        ⟨["myapp"]⟩
      = ⟨.nil, [.Do { Method := "GET", URL := "http://localhost:8080/apps/myapp/log",
                      Body := none },
                .ReadAll,
                .Write "2014-01-01 00:00:00 +0000 UTC - started\n",
                .Write "2014-01-01 00:00:05 +0000 UTC - stopped\n",
                .Close]⟩ :=
  AppLog_Run_writes_lines
    (fakeEnv "http://localhost:8080"
      (respondWith 200 "[\x7b\"date\":\"2014-01-01T00:00:00Z\",\"message\":\"started\"\x7d, \x7b\"Message\":\"stopped\",\"source\":\"web\",\"Date\":\"2014-01-01T00:00:05Z\"\x7d]" none))
    "myapp" []
    { Method := "GET", URL := "http://localhost:8080/apps/myapp/log", Body := none }
    { StatusCode := 200,
      Body := { data := "[\x7b\"date\":\"2014-01-01T00:00:00Z\",\"message\":\"started\"\x7d, \x7b\"Message\":\"stopped\",\"source\":\"web\",\"Date\":\"2014-01-01T00:00:05Z\"\x7d]",
                err := none } }
    [JSON.obj [("date", JSON.str "2014-01-01T00:00:00Z".data),
       ("message", JSON.str "started".data)],
     JSON.obj [("Message", JSON.str "stopped".data), ("source", JSON.str "web".data),
       ("Date", JSON.str "2014-01-01T00:00:05Z".data)]]
    (by rfl) (by rfl) (by decide) (by rfl) (by rfl)

/-! ## C8: the lines of `app-create` -/

theorem decodeMapMembers_strings (cur : List (String × String))
    (fields : List (String × List Char)) :
    decodeMapMembers cur (fields.map fun kv => (kv.1, JSON.str kv.2))
      = some ((fields.reverse.map fun kv => (kv.1, unquote kv.2)) ++ cur) := by
  induction fields generalizing cur with
  | nil => rfl
  | cons kv kvs ih => simp [decodeMapMembers, decodeString, ih]

theorem lookup_map_unquote (key : String) (fields : List (String × List Char)) :
    (fields.map fun kv => (kv.1, unquote kv.2)).lookup key
      = (fields.lookup key).map unquote := by
  induction fields with
  | nil => rfl
  | cons kv kvs ih =>
    obtain ⟨k, v⟩ := kv
    simp only [List.map_cons, List.lookup_cons]
    cases h : (key == k) <;> simp [ih]

/-- C8. For every app name, framework and response to `app-create` whose body is read
without error and is a JSON object whose values are all strings, `AppCreate.Run`
returns nil and writes exactly two lines: `App "<app>" successfully created!` and
`Your repository for "<app>" project is "<url>"`, where `<url>` is the value of the
member `repository_url` (of the last one, should the key be repeated) and the empty
string when there is no such member. -/
theorem AppCreate_Run_writes_repository (env : Env) (appName framework : String)
    (rest : List String) (request : Request) (response : Response)
    (fields : List (String × List Char))
    (hsent : (AppCreate.Run env ⟨appName :: framework :: rest⟩).trace.head? = some (.Do request))
    (hdo : env.client request = .ok response)
    (hread : response.Body.err = none)
    (hbody : parseJSON response.Body.data
      = some (JSON.obj (fields.map fun kv => (kv.1, JSON.str kv.2)))) :
    AppCreate.Run env ⟨appName :: framework :: rest⟩
      = ⟨.nil, [.Do request, .ReadAll,
          .Write ("App \"" ++ appName ++ "\" successfully created!\n"),
          .Write ("Your repository for \"" ++ appName ++ "\" project is \""
            ++ ((fields.reverse.lookup "repository_url").map unquote).getD "" ++ "\"\n"),
          .Close]⟩ := by
  obtain ⟨app, fw, request0, h0, h1, hreq, hset⟩ := AppCreate_sent hsent
  simp only [List.getElem?_cons_zero, Option.some.injEq] at h0
  simp only [List.getElem?_cons_succ, List.getElem?_cons_zero, Option.some.injEq] at h1
  subst h0 h1 hset
  have hdec := decodeMapMembers_strings [] fields
  have hlook := lookup_map_unquote "repository_url" fields.reverse
  have hq : "\"" ++ "\n" = "\"\n" := by decide
  simp only [List.append_nil] at hdec
  simp only [List.map_reverse] at hlook hdec
  simp [AppCreate.Run, hreq, hdo, ioutil.ReadAll, hread, json.Unmarshal_out, hbody, hdec,
    mapIndex, hlook, String.append_assoc, hq]

/-- C8 at `app-create blog python` answered with
`{"repository_url":"git@x:blog.git"}`. -/
theorem AppCreate_Run_writes_repository_witness :
    AppCreate.Run
        (fakeEnv "http://localhost:8080"
          (respondWith 200 "\x7b\"repository_url\":\"git@x:blog.git\"\x7d" none))
        ⟨["blog", "python"]⟩
      = ⟨.nil, [.Do { Method := "POST", URL := "http://localhost:8080/apps",
                      Body := some "\x7b\"name\":\"blog\", \"framework\":\"python\"\x7d",
                      Header := [("Content-Type", "application/json")] },
                .ReadAll,
                .Write "App \"blog\" successfully created!\n",
                .Write "Your repository for \"blog\" project is \"git@x:blog.git\"\n",
                .Close]⟩ :=
  AppCreate_Run_writes_repository
    (fakeEnv "http://localhost:8080"
      (respondWith 200 "\x7b\"repository_url\":\"git@x:blog.git\"\x7d" none))
    "blog" "python" []
    { Method := "POST", URL := "http://localhost:8080/apps",
      Body := some "\x7b\"name\":\"blog\", \"framework\":\"python\"\x7d",
      Header := [("Content-Type", "application/json")] }
    { StatusCode := 200,
      Body := { data := "\x7b\"repository_url\":\"git@x:blog.git\"\x7d", err := none } }
    [("repository_url", "git@x:blog.git".data)]
    (by rfl) (by rfl) (by rfl) (by rfl)

/-! ## C9: the commands without a body -/

/-- C9, as stated, fails at the app name `my%app`: `http.NewRequest` rejects the URL
(`invalid URL escape`), so `AppGrant.Run` returns that error and sends no request. -/
theorem AppGrant_Run_bad_escape_sends_nothing :
    AppGrant.Run (fakeEnv "http://localhost:8080" (respondWith 200 "" none))
        ⟨["my%app", "admin"]⟩
      = ⟨.err (.other "invalid URL escape"), []⟩
    ∧ (AppGrant.Run (fakeEnv "http://localhost:8080" (respondWith 200 "" none))
        ⟨["my%app", "admin"]⟩).requests = [] :=
  ⟨by rfl, by rfl⟩

/-- C9, amended. For every app and team whose URL `http.NewRequest` accepts, each
command without a body sends exactly one request, with no body, and when that call
succeeds returns nil and writes exactly its confirmation line: `app-grant` sends PUT
to the URL of `/apps/<app>/<team>`, `app-revoke` sends DELETE to the same URL, and
`app-remove` sends DELETE to the URL of `/apps/<app>`. -/
theorem bodyless_Run_confirms (env : Env) (app team : String) (rest : List String) :
    (env.urlError (env.GetUrl ("/apps/" ++ app ++ "/" ++ team)) = none →
      ((AppGrant.Run env ⟨app :: team :: rest⟩).requests
          = [{ Method := "PUT", URL := env.GetUrl ("/apps/" ++ app ++ "/" ++ team), Body := none }]
        ∧ ∀ response,
            env.client { Method := "PUT", URL := env.GetUrl ("/apps/" ++ app ++ "/" ++ team),
                         Body := none } = .ok response →
            AppGrant.Run env ⟨app :: team :: rest⟩
              = ⟨.nil, [.Do { Method := "PUT",
                              URL := env.GetUrl ("/apps/" ++ app ++ "/" ++ team), Body := none },
                        .Write ("Team \"" ++ team ++ "\" was added to the \"" ++ app
                          ++ "\" app\n")]⟩)
      ∧ ((AppRevoke.Run env ⟨app :: team :: rest⟩).requests
          = [{ Method := "DELETE", URL := env.GetUrl ("/apps/" ++ app ++ "/" ++ team),
               Body := none }]
        ∧ ∀ response,
            env.client { Method := "DELETE", URL := env.GetUrl ("/apps/" ++ app ++ "/" ++ team),
                         Body := none } = .ok response →
            AppRevoke.Run env ⟨app :: team :: rest⟩
              = ⟨.nil, [.Do { Method := "DELETE",
                              URL := env.GetUrl ("/apps/" ++ app ++ "/" ++ team), Body := none },
                        .Write ("Team \"" ++ team ++ "\" was removed from the \"" ++ app
                          ++ "\" app\n")]⟩))
    ∧ (env.urlError (env.GetUrl ("/apps/" ++ app)) = none →
      (AppRemove.Run env ⟨app :: rest⟩).requests
          = [{ Method := "DELETE", URL := env.GetUrl ("/apps/" ++ app), Body := none }]
        ∧ ∀ response,
            env.client { Method := "DELETE", URL := env.GetUrl ("/apps/" ++ app), Body := none }
              = .ok response →
            AppRemove.Run env ⟨app :: rest⟩
              = ⟨.nil, [.Do { Method := "DELETE", URL := env.GetUrl ("/apps/" ++ app),
                              Body := none },
                        .Write ("App \"" ++ app ++ "\" successfully removed!\n")]⟩) := by
  refine ⟨fun hurl => ⟨⟨?_, ?_⟩, ⟨?_, ?_⟩⟩, fun hurl => ⟨?_, ?_⟩⟩
  · simp only [AppGrant.Run, http.NewRequest, hurl, List.getElem?_cons_zero,
      List.getElem?_cons_succ]
    split <;> rfl
  · intro response hdo
    simp [AppGrant.Run, http.NewRequest, hurl, hdo]
  · simp only [AppRevoke.Run, http.NewRequest, hurl, List.getElem?_cons_zero,
      List.getElem?_cons_succ]
    split <;> rfl
  · intro response hdo
    simp [AppRevoke.Run, http.NewRequest, hurl, hdo]
  · simp only [AppRemove.Run, http.NewRequest, hurl, List.getElem?_cons_zero]
    split <;> rfl
  · intro response hdo
    simp [AppRemove.Run, http.NewRequest, hurl, hdo]

/-- C9, amended, at `app-grant blog admin`. -/
theorem bodyless_Run_confirms_witness :
    AppGrant.Run (fakeEnv "http://localhost:8080" (respondWith 200 "" none)) ⟨["blog", "admin"]⟩
      = ⟨.nil, [.Do { Method := "PUT", URL := "http://localhost:8080/apps/blog/admin",
                      Body := none },
                .Write "Team \"admin\" was added to the \"blog\" app\n"]⟩ :=
  ((bodyless_Run_confirms (fakeEnv "http://localhost:8080" (respondWith 200 "" none))
      "blog" "admin" []).1 (by rfl)).1.2
    { StatusCode := 200, Body := { data := "", err := none } } (by rfl)

/-! ## C5: a failing body read -/

theorem AppList_Run_read_error (env : Env) (context : Context) (request : Request)
    (response : Response) (e : GoError)
    (hsent : (AppList.Run env context).trace.head? = some (.Do request))
    (hdo : env.client request = .ok response)
    (hstatus : response.StatusCode ≠ StatusNoContent)
    (hread : response.Body.err = some e) :
    AppList.Run env context = ⟨.err e, [.Do request, .ReadAll, .Close]⟩ := by
  have hreq := AppList_sent hsent
  simp [AppList.Run, hreq, hdo, hstatus, ioutil.ReadAll, hread]

theorem AppCreate_Run_read_error (env : Env) (context : Context) (request : Request)
    (response : Response) (e : GoError)
    (hsent : (AppCreate.Run env context).trace.head? = some (.Do request))
    (hdo : env.client request = .ok response)
    (hread : response.Body.err = some e) :
    AppCreate.Run env context = ⟨.err e, [.Do request, .ReadAll, .Close]⟩ := by
  obtain ⟨appName, framework, request0, h0, h1, hreq, hset⟩ := AppCreate_sent hsent
  subst hset
  simp [AppCreate.Run, h0, h1, hreq, hdo, ioutil.ReadAll, hread]

/-- C5 fails for `log`: the body read of `log myapp` fails with `unexpected EOF` after
delivering `[{"date":"2014-01-01T00:00:00Z","message":"started"}]`, and `AppLog.Run`
returns nil and writes the line of that entry. -/
theorem AppLog_Run_ignores_read_error :
    AppLog.Run
        (fakeEnv "http://localhost:8080"
          (respondWith 200 "[\x7b\"date\":\"2014-01-01T00:00:00Z\",\"message\":\"started\"\x7d]"
            (some (.other "unexpected EOF"))))
        ⟨["myapp"]⟩
      = ⟨.nil, [.Do { Method := "GET", URL := "http://localhost:8080/apps/myapp/log",
                      Body := none },
                .ReadAll,
                .Write "2014-01-01 00:00:00 +0000 UTC - started\n",
                .Close]⟩ := by
  rfl

/-! ## C6: a failing request construction -/

theorem Run_NewRequest_error (c : Command) (env : Env) (context : Context)
    (hc : c ≠ .AppCreate) (hargs : c.Info.MinArgs ≤ context.Args.length)
    (e : GoError) (hurl : ∀ url, env.urlError url = some e) :
    c.Run env context = ⟨.err e, []⟩ := by
  obtain ⟨args⟩ := context
  cases c
  · match args, hargs with
    | a :: b :: rest, _ => simp [Command.Run, AppGrant.Run, http.NewRequest, hurl]
  · match args, hargs with
    | a :: b :: rest, _ => simp [Command.Run, AppRevoke.Run, http.NewRequest, hurl]
  · simp [Command.Run, AppList.Run, http.NewRequest, hurl]
  · exact absurd rfl hc
  · match args, hargs with
    | a :: rest, _ => simp [Command.Run, AppRemove.Run, http.NewRequest, hurl]
  · match args, hargs with
    | a :: rest, _ => simp [Command.Run, AppLog.Run, http.NewRequest, hurl]

/-- C6 fails for `app-create`: with the target `http://localhost:8080/api%`,
`http.NewRequest` returns an error (`invalid URL escape`) and no request, and
`AppCreate.Run` panics on the nil request instead of returning the error. -/
theorem AppCreate_Run_bad_url_panics :
    http.NewRequest (fakeEnv "http://localhost:8080/api%" (respondWith 200 "\x7b\x7d" none))
        "POST" "http://localhost:8080/api%/apps" (some (AppCreate.body "blog" "python"))
      = .error (.other "invalid URL escape")
    ∧ AppCreate.Run (fakeEnv "http://localhost:8080/api%" (respondWith 200 "\x7b\x7d" none))
        ⟨["blog", "python"]⟩
      = ⟨.panic "invalid memory address or nil pointer dereference", []⟩ :=
  ⟨by rfl, by rfl⟩

/-! ## C10: the request body of `app-create` -/

/-- C10 fails at the app name `my"app`: the one request `AppCreate.Run` sends carries
the body `{"name":"my"app", "framework":"python"}`, which is not well-formed JSON. -/
theorem AppCreate_Run_body_not_escaped :
    (AppCreate.Run
        (fakeEnv "http://localhost:8080"
          (respondWith 200 "\x7b\"repository_url\":\"git@x:blog.git\"\x7d" none))
        ⟨["my\"app", "python"]⟩).requests
      = [{ Method := "POST", URL := "http://localhost:8080/apps",
           Body := some "\x7b\"name\":\"my\"app\", \"framework\":\"python\"\x7d",
           Header := [("Content-Type", "application/json")] }]
    ∧ parseJSON "\x7b\"name\":\"my\"app\", \"framework\":\"python\"\x7d" = none :=
  ⟨by rfl, by rfl⟩

end Tsuru
